import Mathlib

/-!
Shallow embedding of the walletconnect-sequential-tx core
(`src/types.ts`, `src/queue/TransactionQueue.ts`, `src/retry/RetryManager.ts`,
`src/executor/TransactionExecutor.ts`) and proofs about it.

JavaScript `Map`s are modelled as insertion-ordered association lists
(`Map.set` replaces an existing key in place, otherwise appends), JS `Set`s
of dependency ids as duplicate-free lists keeping first occurrences, and
JS falsiness of `0`, `0n`, `''` and `undefined` is modelled explicitly at
each use site.  Time stamps, transaction hashes and receipts play no role
in any verified property and are omitted from the record model.
-/

namespace WalletTx

/-! ## JS helper semantics -/

/-- First binding of `k` in an association list (JS `Map.get`). -/
def mapGet {α : Type} (m : List (String × α)) (k : String) : Option α :=
  match m with
  | [] => none
  | (k', v) :: rest => if k' = k then some v else mapGet rest k

/-- JS `Map.set`: replace the binding in place when the key is present,
otherwise append at the end (insertion order is preserved). -/
def mapSet {α : Type} (m : List (String × α)) (k : String) (v : α) :
    List (String × α) :=
  match m with
  | [] => [(k, v)]
  | (k', v') :: rest =>
      if k' = k then (k, v) :: rest else (k', v') :: mapSet rest k v

/-- JS `Map.delete`: drop the binding for `k`. -/
def mapDelete {α : Type} (m : List (String × α)) (k : String) :
    List (String × α) :=
  m.filter (fun e => e.1 != k)

/-- JS `new Set(list)`: keep the first occurrence of each element. -/
def dedupFirst : List String → List String
  | [] => []
  | x :: rest => x :: (dedupFirst rest).filter (fun y => y != x)

/-- ASCII model of JS `String.prototype.toLowerCase` on one character. -/
def lowerChar (c : Char) : Char :=
  if 'A' ≤ c ∧ c ≤ 'Z' then Char.ofNat (c.toNat + 32) else c

/-- ASCII model of JS `String.prototype.toLowerCase`. -/
def lowerStr (s : String) : String := ⟨s.data.map lowerChar⟩

/-- Does the character list start with the pattern `pat`? -/
def charsStartWith : List Char → List Char → Bool
  | [], _ => true
  | _ :: _, [] => false
  | p :: ps, c :: cs => if p = c then charsStartWith ps cs else false

/-- Does the character list contain `pat` as a contiguous run? -/
def charsInclude (pat : List Char) : List Char → Bool
  | [] => pat.isEmpty
  | c :: cs => charsStartWith pat (c :: cs) || charsInclude pat cs

/-- JS `s.includes(pat)`. -/
def strIncludes (s pat : String) : Bool := charsInclude pat.data s.data

/-- JS truthiness of an optional numeric field (`0` and `undefined` are
falsy); used for `config.nonce`, `config.gasLimit`, `config.gasPrice`,
`config.maxFeePerGas` and the nonce tracker. -/
def jsTruthyNat : Option Nat → Bool
  | none => false
  | some n => n != 0

/-- JS truthiness of an optional string field (`''` and `undefined` are
falsy); used for `config.id`, `config.to` and `config.data`. -/
def jsTruthyStr : Option String → Bool
  | none => false
  | some s => s != ""

/-! ## Data model (`src/types.ts`) -/

/-- `TransactionStatus` enum. -/
inductive TransactionStatus where
  | PENDING | QUEUED | EXECUTING | CONFIRMING
  | CONFIRMED | FAILED | CANCELLED | REPLACED
deriving DecidableEq, Repr

/-- `RetryStrategy` enum. -/
inductive RetryStrategy where
  | EXPONENTIAL_BACKOFF | LINEAR | FIXED_DELAY | NONE
deriving DecidableEq, Repr

/-- `TransactionConfig`: the caller-supplied intent.  `value` doubles as
the optional value field (`0n` is JS-falsy, modelled by `jsTruthyNat`). -/
structure TransactionConfig where
  id : Option String := none
  toAddr : Option String := none
  dataField : Option String := none
  value : Option Nat := none
  gasLimit : Option Nat := none
  gasPrice : Option Nat := none
  maxFeePerGas : Option Nat := none
  maxPriorityFeePerGas : Option Nat := none
  nonce : Option Nat := none
deriving DecidableEq, Repr

/-- `QueuedTransaction` (time stamps, hash and receipt omitted: no claim
mentions them). -/
structure QueuedTransaction where
  id : String
  config : TransactionConfig
  status : TransactionStatus
  priority : Int
  dependencies : List String
  retryCount : Nat
  maxRetries : Nat
  error : Option String := none
deriving DecidableEq, Repr

/-- `TransactionValidation` result of the pre-flight validator. -/
structure TransactionValidation where
  isValid : Bool
  errors : List String
  warnings : List String
deriving DecidableEq, Repr

/-! ## RetryManager (`src/retry/RetryManager.ts`) -/

/-- `RetryOptions`.  Delays are whole milliseconds in every configuration
shipped by the repository, so `baseDelay`, `maxDelay` and
`backoffMultiplier` are naturals; the delay computation itself runs over
`ℚ` because of the fractional jitter. -/
structure RetryOptions where
  strategy : RetryStrategy
  maxRetries : Nat
  baseDelay : Nat
  maxDelay : Nat
  backoffMultiplier : Nat
deriving DecidableEq, Repr

namespace RetryManager

/-- `RetryManager.isRetryableError`: classify by lowercased substring
matching, transient categories first, then the explicit non-retryable
ones, defaulting to `false`. -/
def isRetryableError (msg : String) : Bool :=
  let m := lowerStr msg
  if strIncludes m "network" || strIncludes m "timeout" ||
      strIncludes m "connection" then true
  else if strIncludes m "rate limit" || strIncludes m "too many requests" ||
      strIncludes m "429" then true
  else if strIncludes m "nonce too low" || strIncludes m "already known" then true
  else if strIncludes m "replacement transaction underpriced" ||
      strIncludes m "gas price too low" then true
  else if strIncludes m "pending" || strIncludes m "queued" then true
  else if strIncludes m "user rejected" || strIncludes m "user denied" ||
      strIncludes m "insufficient funds" ||
      strIncludes m "insufficient balance" then false
  else if strIncludes m "revert" || strIncludes m "execution reverted" then false
  else false

/-- `RetryManager.shouldRetry`. -/
def shouldRetry (tx : QueuedTransaction) (msg : String) : Bool :=
  if tx.retryCount ≥ tx.maxRetries then false
  else isRetryableError msg

/-- `RetryManager.getExponentialBackoffDelay`; `rand` stands for the
`Math.random()` sample in `[0, 1)`. -/
def getExponentialBackoffDelay (o : RetryOptions) (attemptNumber : Nat)
    (rand : ℚ) : ℚ :=
  let delay : ℚ := (o.baseDelay : ℚ) * (o.backoffMultiplier : ℚ) ^ (attemptNumber - 1)
  let jitter : ℚ := rand * (1 / 10) * delay
  let totalDelay : ℚ := min (delay + jitter) (o.maxDelay : ℚ)
  ((⌊totalDelay⌋ : Int) : ℚ)

/-- `RetryManager.getLinearDelay`. -/
def getLinearDelay (o : RetryOptions) (attemptNumber : Nat) : ℚ :=
  min ((o.baseDelay : ℚ) * (attemptNumber : ℚ)) (o.maxDelay : ℚ)

/-- `RetryManager.getRetryDelay`. -/
def getRetryDelay (o : RetryOptions) (attemptNumber : Nat) (rand : ℚ) : ℚ :=
  match o.strategy with
  | .EXPONENTIAL_BACKOFF => getExponentialBackoffDelay o attemptNumber rand
  | .LINEAR => getLinearDelay o attemptNumber
  | .FIXED_DELAY => (o.baseDelay : ℚ)
  | .NONE => 0

/-- `RetryManager.resetRetryCount`: returns a copy, the argument is not
mutated (checked by the repository's own tests). -/
def resetRetryCount (tx : QueuedTransaction) : QueuedTransaction :=
  { tx with retryCount := 0 }

/-- `RetryManager.incrementRetryCount`: returns a copy, the argument is
not mutated (checked by the repository's own tests). -/
def incrementRetryCount (tx : QueuedTransaction) : QueuedTransaction :=
  { tx with retryCount := tx.retryCount + 1 }

end RetryManager

/-! ## TransactionQueue (`src/queue/TransactionQueue.ts`) -/

/-- The `TransactionQueue`'s mutable state: the record map, the execution
order, the dependency graph, plus the only constructor option the
modelled operations consult (`defaultMaxRetries`). -/
structure TransactionQueueState where
  queue : List (String × QueuedTransaction)
  executionOrder : List String
  dependencyGraph : List (String × List String)
  defaultMaxRetries : Nat
deriving DecidableEq, Repr

/-- The options record passed to `TransactionQueue.add`. -/
structure AddOptions where
  priority : Option Int := none
  dependencies : Option (List String) := none
  maxRetries : Option Nat := none
deriving DecidableEq, Repr

namespace TransactionQueue

/-- An empty queue with the default `defaultMaxRetries` of 3. -/
def emptyState : TransactionQueueState :=
  { queue := [], executionOrder := [], dependencyGraph := [],
    defaultMaxRetries := 3 }

/-- `TransactionQueue.insertIntoExecutionOrder`: insert `id` before the
first entry whose (present) record has priority strictly below `p`;
entries missing from the record map are skipped; append if no such entry
exists. -/
def insertIntoExecutionOrder (q : List (String × QueuedTransaction))
    (id : String) (p : Int) : List String → List String
  | [] => [id]
  | x :: rest =>
      match mapGet q x with
      | some tx =>
          if tx.priority < p then id :: x :: rest
          else x :: insertIntoExecutionOrder q id p rest
      | none => x :: insertIntoExecutionOrder q id p rest

/-- The identifier `add` settles on: `config.id || generateId()`
(`generatedId` stands for the impure `generateId()` value, used when
`config.id` is JS-falsy). -/
def chosenId (config : TransactionConfig) (generatedId : String) : String :=
  match config.id with
  | some i => if i = "" then generatedId else i
  | none => generatedId

/-- The priority `add` settles on: `options.priority || 0` (an explicit
`0` stays `0`). -/
def effectivePriority (options : AddOptions) : Int :=
  match options.priority with
  | some p => p
  | none => 0

/-- `TransactionQueue.add`.  `options.maxRetries || defaultMaxRetries`
follows JS falsiness (an explicit `0` `maxRetries` falls back to the
default). -/
def add (s : TransactionQueueState) (config : TransactionConfig)
    (options : AddOptions) (generatedId : String) :
    String × TransactionQueueState :=
  let id := chosenId config generatedId
  let prio := effectivePriority options
  let deps := options.dependencies.getD []
  let mr := match options.maxRetries with
    | some m => if m = 0 then s.defaultMaxRetries else m
    | none => s.defaultMaxRetries
  let tx : QueuedTransaction :=
    { id := id, config := { config with id := some id },
      status := .PENDING, priority := prio, dependencies := deps,
      retryCount := 0, maxRetries := mr }
  let q1 := mapSet s.queue id tx
  let g1 := if deps ≠ [] then mapSet s.dependencyGraph id (dedupFirst deps)
            else s.dependencyGraph
  let ord1 := insertIntoExecutionOrder q1 id prio s.executionOrder
  (id, { s with queue := q1, dependencyGraph := g1, executionOrder := ord1 })

/-- `TransactionQueue.remove`: `Except.error` models the thrown
exception for in-flight records; `.ok false` the `return false` for an
unknown id. -/
def remove (s : TransactionQueueState) (id : String) :
    Except String (Bool × TransactionQueueState) :=
  match mapGet s.queue id with
  | none => .ok (false, s)
  | some tx =>
      if tx.status = .EXECUTING ∨ tx.status = .CONFIRMING then
        .error ("Cannot remove transaction " ++ id)
      else
        .ok (true, { s with
          queue := mapDelete s.queue id,
          executionOrder := s.executionOrder.filter (fun y => y != id),
          dependencyGraph :=
            (mapDelete s.dependencyGraph id).map
              (fun e => (e.1, e.2.filter (fun d => d != id))) })

/-- `TransactionQueue.cancel`: fails only for an unknown id or a
`CONFIRMED` record; any other status becomes `CANCELLED`. -/
def cancel (s : TransactionQueueState) (id : String) :
    Bool × TransactionQueueState :=
  match mapGet s.queue id with
  | none => (false, s)
  | some tx =>
      if tx.status = .CONFIRMED then (false, s)
      else (true,
        { s with queue := mapSet s.queue id { tx with status := .CANCELLED } })

/-- `TransactionQueue.hasPendingDependencies`. -/
def hasPendingDependencies (s : TransactionQueueState) (id : String) : Bool :=
  match mapGet s.dependencyGraph id with
  | none => false
  | some deps =>
      if deps = [] then false
      else deps.any (fun depId =>
        match mapGet s.queue depId with
        | none => false
        | some depTx =>
            if depTx.status = .CONFIRMED ∨ depTx.status = .CANCELLED then false
            else true)

/-- Body of the `TransactionQueue.getNext` scan over the execution
order. -/
def getNextAux (s : TransactionQueueState) :
    List String → Option QueuedTransaction
  | [] => none
  | id :: rest =>
      match mapGet s.queue id with
      | none => getNextAux s rest
      | some tx =>
          if (tx.status = .PENDING ∨ tx.status = .QUEUED) ∧
              hasPendingDependencies s id = false then some tx
          else getNextAux s rest

/-- `TransactionQueue.getNext`. -/
def getNext (s : TransactionQueueState) : Option QueuedTransaction :=
  getNextAux s s.executionOrder

/-- `TransactionQueue.updateStatus` (time-stamping elided). -/
def updateStatus (s : TransactionQueueState) (id : String)
    (status : TransactionStatus) : Bool × TransactionQueueState :=
  match mapGet s.queue id with
  | none => (false, s)
  | some tx =>
      (true, { s with queue := mapSet s.queue id { tx with status := status } })

/-- `TransactionQueue.validateTransaction`. -/
def validateTransaction (s : TransactionQueueState)
    (config : TransactionConfig) : TransactionValidation :=
  let toErrors :=
    if jsTruthyStr config.toAddr then ([] : List String)
    else ["Transaction must have a \"to\" address"]
  let warnings :=
    if jsTruthyStr config.dataField = false ∧ jsTruthyNat config.value = false
    then ["Transaction has no data or value"] else ([] : List String)
  let dupErrors :=
    match config.id with
    | some i =>
        if i ≠ "" ∧ (mapGet s.queue i).isSome then
          ["Transaction with ID " ++ i ++ " already exists"]
        else ([] : List String)
    | none => ([] : List String)
  let errors := toErrors ++ dupErrors
  { isValid := errors.isEmpty, errors := errors, warnings := warnings }

/-- `TransactionQueue.reorder`: remove the id from the order, update the
stored record's priority, reinsert at the new position. -/
def reorder (s : TransactionQueueState) (id : String) (newPriority : Int) :
    Bool × TransactionQueueState :=
  match mapGet s.queue id with
  | none => (false, s)
  | some tx =>
      let ord1 := s.executionOrder.filter (fun y => y != id)
      let q1 := mapSet s.queue id { tx with priority := newPriority }
      (true, { s with
        queue := q1,
        executionOrder := insertIntoExecutionOrder q1 id newPriority ord1 })

end TransactionQueue

/-! ## TransactionExecutor (`src/executor/TransactionExecutor.ts`) -/

/-- Lifecycle notifications relevant to the verified claims. -/
inductive TxEvent where
  | retryEvt (id : String) (attemptNumber : Nat)
  | failedEvt (id : String)
  | cancelledEvt (id : String)
deriving DecidableEq, Repr

/-- The executor's mutable state: the shared queue, the in-flight id set
and the per-account nonce tracker. -/
structure ExecutorState where
  queueState : TransactionQueueState
  currentlyExecuting : List String
  nonceTracker : List (String × Nat)
deriving DecidableEq, Repr

/-- The executor options consulted by the modelled functions
(`nonceManager`); the retry configuration is passed to the retry
functions directly. -/
structure ExecOptions where
  nonceManager : Bool
deriving DecidableEq, Repr

/-- The values the external provider returns during one preparation:
`getTransactionCount`, `estimateGas` and `getGasPrice`. -/
structure ProviderReads where
  transactionCount : Nat
  estimatedGas : Nat
  gasPriceQuote : Nat
deriving DecidableEq, Repr

namespace TransactionExecutor

/-- `TransactionExecutor.getAccount`: the source returns this constant
placeholder address. -/
def getAccount : String := "0x0000000000000000000000000000000000000000"

/-- `TransactionExecutor.prepareTransaction`.  `!config.nonce` is JS-falsy
for both `undefined` and an explicit `0`; `this.nonceTracker.get(account)
|| currentNonce` likewise falls back when the tracked value is `0` or
absent. -/
def prepareTransaction (opts : ExecOptions) (tracker : List (String × Nat))
    (config : TransactionConfig) (reads : ProviderReads) :
    TransactionConfig × List (String × Nat) :=
  let account := getAccount
  let step1 :=
    if opts.nonceManager && !(jsTruthyNat config.nonce) then
      let currentNonce := reads.transactionCount
      let trackedNonce :=
        match mapGet tracker account with
        | some t => if t = 0 then currentNonce else t
        | none => currentNonce
      let n := max currentNonce trackedNonce
      ({ config with nonce := some n }, mapSet tracker account (n + 1))
    else (config, tracker)
  let cfg1 := step1.1
  let cfg2 := if !(jsTruthyNat cfg1.gasLimit) then
      { cfg1 with gasLimit := some reads.estimatedGas } else cfg1
  let cfg3 := if !(jsTruthyNat cfg2.gasPrice) && !(jsTruthyNat cfg2.maxFeePerGas)
    then { cfg2 with gasPrice := some reads.gasPriceQuote } else cfg2
  (cfg3, step1.2)

/-- `TransactionExecutor.handleTransactionError` for the record stored
under `id` (in the source the handler receives the same object reference
the queue stores).  The retry branch computes `incrementRetryCount` on a
copy and only writes the status back to the queue; the failure branch
stores the error and marks the record `FAILED`.  The pure delay
computation and the awaited sleep have no state effect and are modelled
separately by `RetryManager.getRetryDelay`. -/
def handleTransactionError (es : ExecutorState) (id : String)
    (errMsg : String) : ExecutorState × List TxEvent :=
  match mapGet es.queueState.queue id with
  | none => (es, [])
  | some tx =>
      if RetryManager.shouldRetry tx errMsg then
        let updatedTx := RetryManager.incrementRetryCount tx
        let qs1 := (TransactionQueue.updateStatus es.queueState updatedTx.id
          .PENDING).2
        let es1 := { es with queueState := qs1 }
        let es2 :=
          if strIncludes (lowerStr errMsg) "nonce" then
            { es1 with nonceTracker := mapDelete es1.nonceTracker getAccount }
          else es1
        (es2, [.retryEvt updatedTx.id updatedTx.retryCount])
      else
        let qs1 := { es.queueState with
          queue := mapSet es.queueState.queue id { tx with error := some errMsg } }
        let qs2 := (TransactionQueue.updateStatus qs1 id .FAILED).2
        ({ es with queueState := qs2 }, [.failedEvt id])

/-- One execution attempt that fails with `errMsg`: the run loop marks
the record `QUEUED`, `executeTransaction` marks it `EXECUTING`, the
dispatch fails and the error handler runs (the in-flight set is restored
by the `finally` block). -/
def failingAttempt (es : ExecutorState) (id : String) (errMsg : String) :
    ExecutorState × List TxEvent :=
  let qs1 := (TransactionQueue.updateStatus es.queueState id .QUEUED).2
  let qs2 := (TransactionQueue.updateStatus qs1 id .EXECUTING).2
  handleTransactionError { es with queueState := qs2 } id errMsg

/-- `n` consecutive failing execution attempts, collecting the emitted
notifications. -/
def failingRun (id : String) (errMsg : String) :
    Nat → ExecutorState → ExecutorState × List TxEvent
  | 0, es => (es, [])
  | n + 1, es =>
      let r1 := failingAttempt es id errMsg
      let r2 := failingRun id errMsg n r1.1
      (r2.1, r1.2 ++ r2.2)

/-- `TransactionExecutor.cancelTransaction` (the emitted `cancelled`
notification is returned alongside). -/
def cancelTransaction (es : ExecutorState) (id : String) :
    Bool × ExecutorState × List TxEvent :=
  match mapGet es.queueState.queue id with
  | none => (false, es, [])
  | some _tx =>
      if es.currentlyExecuting.contains id then (false, es, [])
      else
        let r := TransactionQueue.cancel es.queueState id
        if r.1 then
          (true, { es with queueState := r.2 }, [.cancelledEvt id])
        else (false, { es with queueState := r.2 }, [])

/-- `TransactionExecutor.retryTransaction`.  `resetRetryCount` is
computed on a copy of the record and only its `id` is consulted
afterwards; the queue update writes the status alone. -/
def retryTransaction (es : ExecutorState) (id : String) :
    Bool × ExecutorState :=
  match mapGet es.queueState.queue id with
  | none => (false, es)
  | some tx =>
      if tx.status ≠ .FAILED then (false, es)
      else
        let resetTx := RetryManager.resetRetryCount tx
        let qs1 := (TransactionQueue.updateStatus es.queueState resetTx.id
          .PENDING).2
        (true, { es with queueState := qs1 })

end TransactionExecutor

/-! ## Association-list lemmas -/

theorem mapGet_mapSet_self {α : Type} (m : List (String × α)) (k : String)
    (v : α) : mapGet (mapSet m k v) k = some v := by
  induction m with
  | nil => simp [mapGet, mapSet]
  | cons e rest ih =>
      by_cases h : e.1 = k <;> simp [mapGet, mapSet, h, ih]

theorem mapGet_mapSet_ne {α : Type} (m : List (String × α)) (k k' : String)
    (v : α) (h : k' ≠ k) : mapGet (mapSet m k v) k' = mapGet m k' := by
  have h' : ¬k = k' := fun he => h he.symm
  induction m with
  | nil => simp [mapGet, mapSet, h']
  | cons e rest ih =>
      by_cases he : e.1 = k
      · subst he
        simp [mapGet, mapSet, h']
      · simp [mapGet, mapSet, he, ih]

theorem mapGet_mapDelete_self {α : Type} (m : List (String × α)) (k : String) :
    mapGet (mapDelete m k) k = none := by
  induction m with
  | nil => simp [mapGet, mapDelete]
  | cons e rest ih =>
      by_cases h : e.1 = k <;>
        simp [mapGet, mapDelete, List.filter_cons, bne_iff_ne, h] <;>
        simpa [mapDelete] using ih

theorem mapGet_mapDelete_ne {α : Type} (m : List (String × α)) (k k' : String)
    (h : k' ≠ k) : mapGet (mapDelete m k) k' = mapGet m k' := by
  induction m with
  | nil => simp [mapGet, mapDelete]
  | cons e rest ih =>
      by_cases he : e.1 = k
      · subst he
        have h' : ¬e.1 = k' := fun hk => h hk.symm
        simp [mapGet, mapDelete, List.filter_cons, h']
        simpa [mapDelete] using ih
      · by_cases he' : e.1 = k'
        · simp [mapGet, mapDelete, List.filter_cons, bne_iff_ne, he, he', h]
        · simp [mapGet, mapDelete, List.filter_cons, bne_iff_ne, he, he', h]
          simpa [mapDelete] using ih

theorem mapGet_mapValues {α β : Type} (m : List (String × α)) (f : α → β)
    (k : String) :
    mapGet (m.map (fun e => (e.1, f e.2))) k = (mapGet m k).map f := by
  induction m with
  | nil => simp [mapGet]
  | cons e rest ih =>
      by_cases h : e.1 = k <;> simp [mapGet, h, ih]

/-! ## Shared concrete fixtures -/

/-- A freshly added record: `PENDING`, no retries yet, ceiling 3. -/
def sampleCfg : TransactionConfig :=
  { id := some "tx1", toAddr := some "0xabc" }

/-- The record `TransactionQueue.add` creates for `sampleCfg`. -/
def sampleTx : QueuedTransaction :=
  { id := "tx1", config := sampleCfg, status := .PENDING, priority := 0,
    dependencies := [], retryCount := 0, maxRetries := 3 }

/-- A queue holding just `sampleTx`. -/
def sampleQueueState : TransactionQueueState :=
  { queue := [("tx1", sampleTx)], executionOrder := ["tx1"],
    dependencyGraph := [], defaultMaxRetries := 3 }

/-- An executor over `sampleQueueState`, nothing in flight. -/
def sampleExec : ExecutorState :=
  { queueState := sampleQueueState, currentlyExecuting := [],
    nonceTracker := [] }

/-- A record that has reached terminal failure with 2 recorded retries. -/
def failedTx : QueuedTransaction :=
  { id := "txf", config := { id := some "txf", toAddr := some "0xdef" },
    status := .FAILED, priority := 0, dependencies := [],
    retryCount := 2, maxRetries := 3, error := some "network timeout" }

/-- A queue holding just `failedTx`. -/
def failedQueueState : TransactionQueueState :=
  { queue := [("txf", failedTx)], executionOrder := ["txf"],
    dependencyGraph := [], defaultMaxRetries := 3 }

/-- An executor over `failedQueueState`, nothing in flight. -/
def failedExec : ExecutorState :=
  { queueState := failedQueueState, currentlyExecuting := [],
    nonceTracker := [] }

/-! ## Claims -/

/-- Claim C1.  The claim states that the failure handler increments the
record's stored retry counter on each retryable failure, so a record with
retry ceiling 3 that always fails retryably reaches `FAILED` after
exactly 3 retries, with exactly 3 retry notifications and then 1 failed
notification.  The code instead computes `incrementRetryCount` on a copy
and discards it: after four consecutive retryable failures the stored
counter is still 0, the status is still `PENDING` (never `FAILED`), four
retry notifications have been emitted — already exceeding the ceiling —
each carrying attempt number 1, and no failed notification ever fires.
This theorem evaluates the embedded executor at that failing input. -/
theorem retryCounter_never_incremented_bug :
    (TransactionExecutor.failingRun "tx1" "network timeout" 4 sampleExec).2 =
      [.retryEvt "tx1" 1, .retryEvt "tx1" 1, .retryEvt "tx1" 1,
        .retryEvt "tx1" 1] ∧
    (mapGet (TransactionExecutor.failingRun "tx1" "network timeout" 4
        sampleExec).1.queueState.queue "tx1").map
      (fun t => (t.retryCount, t.status)) = some (0, .PENDING) := by
  decide

/-- Claim C4.  The claim states that `retryTransaction` on a `FAILED`
record resets the stored retry counter to 0 and the status to `PENDING`.
The code computes `resetRetryCount` on a copy and discards it, writing
only the status back: on a `FAILED` record with stored retry counter 2
the call returns success and afterwards the stored record has status
`PENDING` but retry counter still 2.  This theorem evaluates the embedded
executor at that failing input. -/
theorem retryTransaction_reset_discarded_bug :
    (TransactionExecutor.retryTransaction failedExec "txf").1 = true ∧
    (mapGet (TransactionExecutor.retryTransaction failedExec
        "txf").2.queueState.queue "txf").map
      (fun t => (t.retryCount, t.status)) = some (2, .PENDING) := by
  decide

/-- The lowercased substrings `RetryManager.isRetryableError` classifies
as transient (retryable), in source order. -/
def retryableKeywords : List String :=
  ["network", "timeout", "connection", "rate limit", "too many requests",
   "429", "nonce too low", "already known",
   "replacement transaction underpriced", "gas price too low",
   "pending", "queued"]

/-- Claim C7 counterexample.  The claim says every error whose message
contains "insufficient funds" is non-retryable for a record below its
ceiling.  The classifier checks the transient categories first, so a
message containing both "connection" and "insufficient funds" is
retryable: `shouldRetry` returns `true` on `sampleTx` (retry count 0,
ceiling 3). -/
theorem shouldRetry_insufficient_funds_cex :
    strIncludes (lowerStr "Connection failed: insufficient funds")
      "insufficient funds" = true ∧
    sampleTx.retryCount < sampleTx.maxRetries ∧
    RetryManager.shouldRetry sampleTx
      "Connection failed: insufficient funds" = true := by
  decide

/-- Claim C7, amended.  Provided the lowercased message matches none of
the retryable keywords, `shouldRetry` returns `false` — this covers
"insufficient funds", user rejection and revert messages that do not
also contain a transient keyword, and every unclassified error
(fail-closed), for every record. -/
theorem shouldRetry_fail_closed (tx : QueuedTransaction) (msg : String)
    (h : ∀ k ∈ retryableKeywords, strIncludes (lowerStr msg) k = false) :
    RetryManager.shouldRetry tx msg = false := by
  have h1 := h "network" (by simp [retryableKeywords])
  have h2 := h "timeout" (by simp [retryableKeywords])
  have h3 := h "connection" (by simp [retryableKeywords])
  have h4 := h "rate limit" (by simp [retryableKeywords])
  have h5 := h "too many requests" (by simp [retryableKeywords])
  have h6 := h "429" (by simp [retryableKeywords])
  have h7 := h "nonce too low" (by simp [retryableKeywords])
  have h8 := h "already known" (by simp [retryableKeywords])
  have h9 := h "replacement transaction underpriced"
    (by simp [retryableKeywords])
  have h10 := h "gas price too low" (by simp [retryableKeywords])
  have h11 := h "pending" (by simp [retryableKeywords])
  have h12 := h "queued" (by simp [retryableKeywords])
  have hr : RetryManager.isRetryableError msg = false := by
    simp [RetryManager.isRetryableError, h1, h2, h3, h4, h5, h6, h7, h8,
      h9, h10, h11, h12]
  simp [RetryManager.shouldRetry, hr]

/-- Witness for `shouldRetry_fail_closed` at the message
"insufficient funds" and the record `sampleTx`. -/
theorem shouldRetry_fail_closed_witness :
    (∀ k ∈ retryableKeywords,
      strIncludes (lowerStr "insufficient funds") k = false) ∧
    RetryManager.shouldRetry sampleTx "insufficient funds" = false :=
  ⟨by decide, shouldRetry_fail_closed sampleTx "insufficient funds" (by decide)⟩

/-- A fixed-delay configuration whose base delay exceeds its maximum
delay. -/
def fixedOpts : RetryOptions :=
  { strategy := .FIXED_DELAY, maxRetries := 3, baseDelay := 500,
    maxDelay := 100, backoffMultiplier := 2 }

/-- Claim C8 counterexample.  The claim says the computed delay is
clamped to the configured maximum for every strategy, the fixed
strategy's constant base delay included.  The `FIXED_DELAY` branch
returns the base delay without clamping: with base 500 and maximum 100
the delay at attempt 1 is 500 > 100. -/
theorem fixedDelay_unclamped_cex :
    RetryManager.getRetryDelay fixedOpts 1 0 = (500 : ℚ) ∧
    ((fixedOpts.maxDelay : ℚ) < RetryManager.getRetryDelay fixedOpts 1 0) := by
  constructor
  · norm_num [RetryManager.getRetryDelay, fixedOpts]
  · norm_num [RetryManager.getRetryDelay, fixedOpts]

/-- Claim C8, amended.  For every configuration and attempt ≥ 1 (jitter
sample in `[0,1)`), the computed delay is a whole number of
milliseconds; the exponential, linear and none strategies clamp it to
the configured maximum, while the fixed strategy returns the base delay
unclamped (so it respects the maximum only when the base delay does). -/
theorem getRetryDelay_whole_and_clamped (o : RetryOptions) (a : Nat)
    (rand : ℚ) (ha : 1 ≤ a) (h0 : 0 ≤ rand) (h1 : rand < 1) :
    (RetryManager.getRetryDelay o a rand).den = 1 ∧
    (o.strategy ≠ .FIXED_DELAY →
      RetryManager.getRetryDelay o a rand ≤ (o.maxDelay : ℚ)) ∧
    (o.strategy = .FIXED_DELAY →
      RetryManager.getRetryDelay o a rand = (o.baseDelay : ℚ)) := by
  obtain ⟨strat, mr, bd, md, bm⟩ := o
  cases strat with
  | EXPONENTIAL_BACKOFF =>
      refine ⟨?_, fun _ => ?_, fun hc => by simp at hc⟩
      · simp [RetryManager.getRetryDelay, RetryManager.getExponentialBackoffDelay]
      · simp only [RetryManager.getRetryDelay,
          RetryManager.getExponentialBackoffDelay]
        exact (Int.floor_le _).trans (min_le_right _ _)
  | LINEAR =>
      refine ⟨?_, fun _ => ?_, fun hc => by simp at hc⟩
      · have hcast : ((bd : ℚ) * (a : ℚ)) = ((bd * a : Nat) : ℚ) := by
          push_cast; ring
        simp only [RetryManager.getRetryDelay, RetryManager.getLinearDelay]
        rcases le_total ((bd : ℚ) * (a : ℚ)) ((md : ℚ)) with hle | hle
        · rw [min_eq_left hle, hcast, Rat.den_natCast]
        · rw [min_eq_right hle, Rat.den_natCast]
      · exact min_le_right _ _
  | FIXED_DELAY =>
      refine ⟨?_, fun hc => absurd rfl hc, fun _ => rfl⟩
      simp [RetryManager.getRetryDelay]
  | NONE =>
      refine ⟨?_, fun _ => ?_, fun hc => by simp at hc⟩
      · simp [RetryManager.getRetryDelay]
      · simp only [RetryManager.getRetryDelay]
        positivity

/-- The exponential-backoff configuration exercised by the repository's
own tests (base 100, multiplier 2, maximum 5000). -/
def expOpts : RetryOptions :=
  { strategy := .EXPONENTIAL_BACKOFF, maxRetries := 3, baseDelay := 100,
    maxDelay := 5000, backoffMultiplier := 2 }

/-- Witness for `getRetryDelay_whole_and_clamped` at `expOpts`,
attempt 2, jitter sample 1/2. -/
theorem getRetryDelay_whole_and_clamped_witness :
    (1 ≤ 2 ∧ (0 : ℚ) ≤ 1 / 2 ∧ (1 / 2 : ℚ) < 1) ∧
    ((RetryManager.getRetryDelay expOpts 2 (1 / 2)).den = 1 ∧
     (expOpts.strategy ≠ .FIXED_DELAY →
       RetryManager.getRetryDelay expOpts 2 (1 / 2) ≤ (expOpts.maxDelay : ℚ)) ∧
     (expOpts.strategy = .FIXED_DELAY →
       RetryManager.getRetryDelay expOpts 2 (1 / 2) = (expOpts.baseDelay : ℚ))) :=
  ⟨⟨by norm_num, by norm_num, by norm_num⟩,
    getRetryDelay_whole_and_clamped expOpts 2 (1 / 2) (by norm_num)
      (by norm_num) (by norm_num)⟩

/-- Inserting into the execution order always adds exactly one entry. -/
theorem insertIntoExecutionOrder_length
    (q : List (String × QueuedTransaction)) (id : String) (p : Int) :
    ∀ l : List String,
      (TransactionQueue.insertIntoExecutionOrder q id p l).length =
        l.length + 1
  | [] => by simp [TransactionQueue.insertIntoExecutionOrder]
  | x :: rest => by
      unfold TransactionQueue.insertIntoExecutionOrder
      cases mapGet q x with
      | none => simp [insertIntoExecutionOrder_length q id p rest]
      | some tx =>
          by_cases hp : tx.priority < p <;>
            simp [hp, insertIntoExecutionOrder_length q id p rest]

/-- A queue already holding an id "a" with priority 5, to be targeted by
a duplicate-id `add`. -/
def dupBaseTx : QueuedTransaction :=
  { id := "a", config := { id := some "a", toAddr := some "0x1" },
    status := .PENDING, priority := 5, dependencies := [],
    retryCount := 0, maxRetries := 3 }

/-- Queue state whose record set is `{"a" ↦ dupBaseTx}`. -/
def dupBaseState : TransactionQueueState :=
  { queue := [("a", dupBaseTx)], executionOrder := ["a"],
    dependencyGraph := [], defaultMaxRetries := 3 }

/-- A second intent reusing the identifier "a". -/
def dupCfg : TransactionConfig :=
  { id := some "a", toAddr := some "0x2" }

/-- Claim C2 counterexample.  The claim says an enqueue whose intent
reuses an existing identifier is rejected with a validation error and
leaves the record set and execution order unchanged.  `add` performs no
validation: re-adding id "a" (now with priority 1) returns the id
normally, overwrites the stored record (priority 5 becomes 1) and
inserts "a" into the execution order a second time. -/
theorem add_duplicate_not_rejected_cex :
    (TransactionQueue.add dupBaseState dupCfg { priority := some 1 }
      "generated").1 = "a" ∧
    (TransactionQueue.add dupBaseState dupCfg { priority := some 1 }
      "generated").2.executionOrder = ["a", "a"] ∧
    (mapGet (TransactionQueue.add dupBaseState dupCfg { priority := some 1 }
      "generated").2.queue "a").map (fun t => t.priority) = some 1 ∧
    (mapGet dupBaseState.queue "a").map (fun t => t.priority) = some 5 := by
  decide

/-- Claim C2, amended.  Duplicate identifiers are flagged only by the
separate pre-flight `validateTransaction` (which reports a validation
error synchronously when invoked); `add` itself never invokes it: an
enqueue whose intent carries an identifier already present returns that
identifier normally, overwrites the stored record, and always grows the
execution order by one entry. -/
theorem duplicate_id_validation_and_add (s : TransactionQueueState)
    (cfg : TransactionConfig) (opts : AddOptions) (gid i : String)
    (hid : cfg.id = some i) (hne : i ≠ "")
    (hdup : (mapGet s.queue i).isSome = true) :
    (TransactionQueue.validateTransaction s cfg).isValid = false ∧
    (TransactionQueue.add s cfg opts gid).1 = i ∧
    (TransactionQueue.add s cfg opts gid).2.executionOrder.length =
      s.executionOrder.length + 1 := by
  refine ⟨?_, ?_, ?_⟩
  · simp only [TransactionQueue.validateTransaction, hid, hne, hdup,
      ne_eq, not_false_eq_true, and_self, if_true]
    split <;> simp
  · simp [TransactionQueue.add, TransactionQueue.chosenId, hid, hne]
  · simp [TransactionQueue.add, TransactionQueue.chosenId, hid, hne,
      insertIntoExecutionOrder_length]

/-- Witness for `duplicate_id_validation_and_add` at `dupBaseState` and
`dupCfg`. -/
theorem duplicate_id_validation_and_add_witness :
    (dupCfg.id = some "a" ∧ "a" ≠ "" ∧
      (mapGet dupBaseState.queue "a").isSome = true) ∧
    ((TransactionQueue.validateTransaction dupBaseState dupCfg).isValid =
        false ∧
      (TransactionQueue.add dupBaseState dupCfg { priority := some 1 }
        "gen2").1 = "a" ∧
      (TransactionQueue.add dupBaseState dupCfg { priority := some 1 }
        "gen2").2.executionOrder.length =
        dupBaseState.executionOrder.length + 1) :=
  ⟨⟨by decide, by decide, by decide⟩,
    duplicate_id_validation_and_add dupBaseState dupCfg
      { priority := some 1 } "gen2" "a" (by decide) (by decide) (by decide)⟩

/-- Claim C5 counterexample.  The claim says a record reaches `CANCELLED`
only from `PENDING` or `QUEUED`, the cancel operation failing for every
other status.  Cancelling the `FAILED` (neither pending nor queued, not
in flight) record `failedTx` succeeds and moves it to `CANCELLED`. -/
theorem cancel_from_failed_cex :
    failedTx.status ≠ .PENDING ∧ failedTx.status ≠ .QUEUED ∧
    (TransactionExecutor.cancelTransaction failedExec "txf").1 = true ∧
    (mapGet (TransactionExecutor.cancelTransaction failedExec
        "txf").2.1.queueState.queue "txf").map (fun t => t.status) =
      some .CANCELLED := by
  decide

/-- Claim C5, amended.  For a record that exists and is not in flight,
`cancelTransaction` fails and leaves the state unchanged exactly when
the record is already `CONFIRMED`; from every other status — `FAILED`
and `CANCELLED` included, not only `PENDING`/`QUEUED` — it succeeds,
stores status `CANCELLED`, and emits one cancelled notification. -/
theorem cancelTransaction_semantics (es : ExecutorState) (id : String)
    (tx : QueuedTransaction)
    (hget : mapGet es.queueState.queue id = some tx)
    (hnot : es.currentlyExecuting.contains id = false) :
    (tx.status = .CONFIRMED →
      TransactionExecutor.cancelTransaction es id = (false, es, [])) ∧
    (tx.status ≠ .CONFIRMED →
      (TransactionExecutor.cancelTransaction es id).1 = true ∧
      mapGet (TransactionExecutor.cancelTransaction es id).2.1.queueState.queue
        id = some { tx with status := .CANCELLED } ∧
      (∀ x, x ≠ id →
        mapGet (TransactionExecutor.cancelTransaction es id).2.1.queueState.queue
          x = mapGet es.queueState.queue x) ∧
      (TransactionExecutor.cancelTransaction es id).2.2 = [.cancelledEvt id]) := by
  constructor
  · intro hc
    simp [TransactionExecutor.cancelTransaction, hget, hnot,
      TransactionQueue.cancel, hc]
  · intro hc
    have hmem : id ∉ es.currentlyExecuting := by simpa using hnot
    refine ⟨?_, ?_, fun x hx => ?_, ?_⟩
    · simp [TransactionExecutor.cancelTransaction, hget, hmem,
        TransactionQueue.cancel, hc]
    · simp [TransactionExecutor.cancelTransaction, hget, hmem,
        TransactionQueue.cancel, hc, mapGet_mapSet_self]
    · simp [TransactionExecutor.cancelTransaction, hget, hmem,
        TransactionQueue.cancel, hc, mapGet_mapSet_ne _ _ _ _ hx]
    · simp [TransactionExecutor.cancelTransaction, hget, hmem,
        TransactionQueue.cancel, hc]

/-- Witness for `cancelTransaction_semantics` at `failedExec` and the
`FAILED` record `failedTx`. -/
theorem cancelTransaction_semantics_witness :
    (mapGet failedExec.queueState.queue "txf" = some failedTx ∧
      failedExec.currentlyExecuting.contains "txf" = false ∧
      failedTx.status ≠ .CONFIRMED) ∧
    ((TransactionExecutor.cancelTransaction failedExec "txf").1 = true ∧
      mapGet (TransactionExecutor.cancelTransaction failedExec
        "txf").2.1.queueState.queue "txf" =
        some { failedTx with status := .CANCELLED } ∧
      (∀ x, x ≠ "txf" →
        mapGet (TransactionExecutor.cancelTransaction failedExec
          "txf").2.1.queueState.queue x =
          mapGet failedExec.queueState.queue x) ∧
      (TransactionExecutor.cancelTransaction failedExec "txf").2.2 =
        [.cancelledEvt "txf"]) :=
  ⟨⟨by decide, by decide, by decide⟩,
    (cancelTransaction_semantics failedExec "txf" failedTx (by decide)
      (by decide)).2 (by decide)⟩

/-- The value `prepareTransaction` reads from the nonce ledger for the
executor's account: the tracked entry, falling back to the provider's
count when the entry is absent or `0` (JS `tracker.get(account) ||
currentNonce`). -/
def trackedNonceFor (tracker : List (String × Nat)) (currentNonce : Nat) :
    Nat :=
  match mapGet tracker TransactionExecutor.getAccount with
  | some t => if t = 0 then currentNonce else t
  | none => currentNonce

/-- Claim C10.  With automatic nonce management enabled, an intent whose
explicit nonce is `0` is treated as having no nonce (JS falsiness of
`config.nonce`): `prepareTransaction` overwrites it with the maximum of
the provider's pending transaction count and the ledger's tracked nonce,
and advances the ledger entry to that maximum plus one, rather than
preserving the caller-supplied `0`. -/
theorem prepareTransaction_zero_nonce (opts : ExecOptions)
    (tracker : List (String × Nat)) (cfg : TransactionConfig)
    (reads : ProviderReads) (hnm : opts.nonceManager = true)
    (hz : cfg.nonce = some 0) :
    (TransactionExecutor.prepareTransaction opts tracker cfg reads).1.nonce =
      some (max reads.transactionCount
        (trackedNonceFor tracker reads.transactionCount)) ∧
    mapGet (TransactionExecutor.prepareTransaction opts tracker cfg reads).2
      TransactionExecutor.getAccount =
      some (max reads.transactionCount
        (trackedNonceFor tracker reads.transactionCount) + 1) := by
  unfold TransactionExecutor.prepareTransaction trackedNonceFor
  rw [hz, hnm]
  simp only [jsTruthyNat, bne_self_eq_false, Bool.not_false, Bool.and_true,
    Bool.true_and, if_true]
  constructor
  · split <;> split <;> rfl
  · simp [mapGet_mapSet_self]

/-- A nonce ledger tracking nonce 7 for the executor's account. -/
def sampleTracker : List (String × Nat) :=
  [(TransactionExecutor.getAccount, 7)]

/-- An intent with an explicit `0` nonce. -/
def zeroNonceCfg : TransactionConfig :=
  { id := some "tz", toAddr := some "0x9", nonce := some 0 }

/-- Provider reads for the witness: pending count 5, gas estimate 21000,
gas price 33. -/
def sampleReads : ProviderReads :=
  { transactionCount := 5, estimatedGas := 21000, gasPriceQuote := 33 }

/-- Witness for `prepareTransaction_zero_nonce`: tracked nonce 7 beats
pending count 5, so the prepared nonce is 7 and the ledger advances
to 8. -/
theorem prepareTransaction_zero_nonce_witness :
    (ExecOptions.mk true).nonceManager = true ∧
    zeroNonceCfg.nonce = some 0 ∧
    ((TransactionExecutor.prepareTransaction (ExecOptions.mk true)
        sampleTracker zeroNonceCfg sampleReads).1.nonce =
      some (max sampleReads.transactionCount
        (trackedNonceFor sampleTracker sampleReads.transactionCount)) ∧
     mapGet (TransactionExecutor.prepareTransaction (ExecOptions.mk true)
        sampleTracker zeroNonceCfg sampleReads).2
        TransactionExecutor.getAccount =
      some (max sampleReads.transactionCount
        (trackedNonceFor sampleTracker sampleReads.transactionCount) + 1)) :=
  ⟨rfl, rfl, prepareTransaction_zero_nonce (ExecOptions.mk true)
    sampleTracker zeroNonceCfg sampleReads rfl rfl⟩

/-- The dependency list the code consults for `id`: the
dependency-graph entry, empty when absent. -/
def depsOf (s : TransactionQueueState) (id : String) : List String :=
  (mapGet s.dependencyGraph id).getD []

/-- Written from the spec's description of eligibility (the refinement
side, to be compared with `TransactionQueue.getNext`): the record stored
under `x` has status `PENDING` or `QUEUED` and every dependency of `x`
that exists in the queue is `CONFIRMED` or `CANCELLED`; a dependency id
not present in the queue does not block. -/
def eligibleSpec (s : TransactionQueueState) (x : String) : Prop :=
  ∃ tx, mapGet s.queue x = some tx ∧
    (tx.status = .PENDING ∨ tx.status = .QUEUED) ∧
    ∀ d ∈ depsOf s x, ∀ dtx, mapGet s.queue d = some dtx →
      (dtx.status = .CONFIRMED ∨ dtx.status = .CANCELLED)

/-- The code's blocking check agrees with the spec's dependency
condition: `hasPendingDependencies` is `false` iff every dependency
present in the queue is `CONFIRMED` or `CANCELLED`. -/
theorem hasPendingDependencies_eq_false_iff (s : TransactionQueueState)
    (x : String) :
    TransactionQueue.hasPendingDependencies s x = false ↔
      ∀ d ∈ depsOf s x, ∀ dtx, mapGet s.queue d = some dtx →
        (dtx.status = .CONFIRMED ∨ dtx.status = .CANCELLED) := by
  unfold TransactionQueue.hasPendingDependencies depsOf
  cases hg : mapGet s.dependencyGraph x with
  | none => simp
  | some deps =>
      by_cases hnil : deps = []
      · simp [hnil]
      · simp only [hnil, if_false, Option.getD_some]
        rw [show (deps.any fun depId =>
            match mapGet s.queue depId with
            | none => false
            | some depTx =>
                if depTx.status = .CONFIRMED ∨ depTx.status = .CANCELLED
                then false else true) = false ↔
            ∀ d ∈ deps, (match mapGet s.queue d with
            | none => false
            | some depTx =>
                if depTx.status = .CONFIRMED ∨ depTx.status = .CANCELLED
                then false else true) = false from by
          rw [← Bool.not_eq_true, List.any_eq_true]
          push_neg
          simp]
        constructor
        · intro h d hd dtx hdtx
          have hh := h d hd
          rw [hdtx] at hh
          by_cases ht : dtx.status = .CONFIRMED ∨ dtx.status = .CANCELLED
          · exact ht
          · simp [ht] at hh
        · intro h d hd
          cases hq : mapGet s.queue d with
          | none => simp
          | some dtx => simp [h d hd dtx hq]

/-- Unfolding equation for the `getNext` scan on a non-empty order. -/
theorem getNextAux_cons (s : TransactionQueueState) (id : String)
    (rest : List String) :
    TransactionQueue.getNextAux s (id :: rest) =
      match mapGet s.queue id with
      | none => TransactionQueue.getNextAux s rest
      | some tx =>
          if (tx.status = .PENDING ∨ tx.status = .QUEUED) ∧
              TransactionQueue.hasPendingDependencies s id = false
          then some tx
          else TransactionQueue.getNextAux s rest := rfl

/-- The `getNext` scan over a list of ids returns the record stored
under the first spec-eligible id, and returns `none` exactly when no id
in the list is eligible. -/
theorem getNextAux_spec (s : TransactionQueueState) :
    ∀ l : List String,
      (∀ tx, TransactionQueue.getNextAux s l = some tx →
        ∃ l₁ x l₂, l = l₁ ++ x :: l₂ ∧ mapGet s.queue x = some tx ∧
          eligibleSpec s x ∧ ∀ y ∈ l₁, ¬ eligibleSpec s y) ∧
      (TransactionQueue.getNextAux s l = none →
        ∀ x ∈ l, ¬ eligibleSpec s x)
  | [] => by simp [TransactionQueue.getNextAux]
  | id :: rest => by
      have IH := getNextAux_spec s rest
      cases hq : mapGet s.queue id with
      | none =>
          simp only [getNextAux_cons, hq]
          have hnel : ¬ eligibleSpec s id := by
            rintro ⟨tx, htx, -⟩
            rw [hq] at htx
            cases htx
          constructor
          · intro tx hsome
            obtain ⟨l₁, x, l₂, hsplit, hx, helig, hnone⟩ := IH.1 tx hsome
            refine ⟨id :: l₁, x, l₂, by rw [hsplit]; rfl, hx, helig, ?_⟩
            intro y hy
            rcases List.mem_cons.mp hy with rfl | hy'
            · exact hnel
            · exact hnone y hy'
          · intro hnone x hx
            rcases List.mem_cons.mp hx with rfl | hx'
            · exact hnel
            · exact IH.2 hnone x hx'
      | some tx' =>
          simp only [getNextAux_cons, hq]
          by_cases hc : (tx'.status = .PENDING ∨ tx'.status = .QUEUED) ∧
              TransactionQueue.hasPendingDependencies s id = false
          · rw [if_pos hc]
            constructor
            · intro tx hsome
              have htx : tx' = tx := by injection hsome
              subst htx
              refine ⟨[], id, rest, rfl, hq, ?_, by simp⟩
              exact ⟨tx', hq, hc.1,
                (hasPendingDependencies_eq_false_iff s id).mp hc.2⟩
            · intro hnone
              cases hnone
          · have hnel : ¬ eligibleSpec s id := by
              rintro ⟨tx, htx, hst, hdeps⟩
              rw [hq] at htx
              have : tx' = tx := by injection htx
              subst this
              exact hc ⟨hst,
                (hasPendingDependencies_eq_false_iff s id).mpr hdeps⟩
            rw [if_neg hc]
            constructor
            · intro tx hsome
              obtain ⟨l₁, x, l₂, hsplit, hx, helig, hnone⟩ := IH.1 tx hsome
              refine ⟨id :: l₁, x, l₂, by rw [hsplit]; rfl, hx, helig, ?_⟩
              intro y hy
              rcases List.mem_cons.mp hy with rfl | hy'
              · exact hnel
              · exact hnone y hy'
            · intro hnone x hx
              rcases List.mem_cons.mp hx with rfl | hx'
              · exact hnel
              · exact IH.2 hnone x hx'

/-- Claim C3.  `getNext` returns the record stored under the first id in
the execution order that is eligible in the spec's sense — status
`PENDING` or `QUEUED` and every dependency that exists in the queue
`CONFIRMED` or `CANCELLED`, unknown dependency ids not blocking — and
returns `none` exactly when no id in the order is eligible.  In
particular a returned record never has a dependency present in the queue
whose status is neither `CONFIRMED` nor `CANCELLED`. -/
theorem getNext_first_eligible (s : TransactionQueueState) :
    (∀ tx, TransactionQueue.getNext s = some tx →
      ∃ l₁ x l₂, s.executionOrder = l₁ ++ x :: l₂ ∧
        mapGet s.queue x = some tx ∧ eligibleSpec s x ∧
        ∀ y ∈ l₁, ¬ eligibleSpec s y) ∧
    (TransactionQueue.getNext s = none →
      ∀ x ∈ s.executionOrder, ¬ eligibleSpec s x) :=
  getNextAux_spec s s.executionOrder

/-- Witness for `getNext_first_eligible` at `sampleQueueState`, where
`getNext` returns `sampleTx`. -/
theorem getNext_first_eligible_witness :
    ∃ l₁ x l₂, sampleQueueState.executionOrder = l₁ ++ x :: l₂ ∧
      mapGet sampleQueueState.queue x = some sampleTx ∧
      eligibleSpec sampleQueueState x ∧
      ∀ y ∈ l₁, ¬ eligibleSpec sampleQueueState y :=
  (getNext_first_eligible sampleQueueState).1 sampleTx (by decide)

/-- Claim C9.  For an existing record that is neither `EXECUTING` nor
`CONFIRMING`, `remove` succeeds and: deletes the record, deletes every
execution-order entry for it, empties its own dependency entry, removes
its id from every other record's dependency list, and changes nothing
else — other records and their queue bindings are untouched.
Consequently, for any other record whose remaining dependencies (those
different from the removed id) are all satisfied in the old state, the
dependency check passes afterwards, and the record is eligible as soon
as its status allows — regardless of the removed record's status. -/
theorem remove_frame (s : TransactionQueueState) (id : String)
    (tx : QueuedTransaction) (hget : mapGet s.queue id = some tx)
    (hex : tx.status ≠ .EXECUTING) (hcf : tx.status ≠ .CONFIRMING) :
    ∃ s', TransactionQueue.remove s id = .ok (true, s') ∧
      mapGet s'.queue id = none ∧
      (∀ x, x ≠ id → mapGet s'.queue x = mapGet s.queue x) ∧
      s'.executionOrder = s.executionOrder.filter (fun y => y != id) ∧
      depsOf s' id = [] ∧
      (∀ x, x ≠ id → depsOf s' x = (depsOf s x).filter (fun d => d != id)) ∧
      (∀ x tx', x ≠ id → mapGet s'.queue x = some tx' →
        (∀ d ∈ depsOf s x, d ≠ id → ∀ dtx, mapGet s.queue d = some dtx →
          (dtx.status = .CONFIRMED ∨ dtx.status = .CANCELLED)) →
        TransactionQueue.hasPendingDependencies s' x = false ∧
        ((tx'.status = .PENDING ∨ tx'.status = .QUEUED) →
          eligibleSpec s' x)) := by
  have hcond : ¬(tx.status = .EXECUTING ∨ tx.status = .CONFIRMING) :=
    not_or.mpr ⟨hex, hcf⟩
  refine ⟨{ s with
      queue := mapDelete s.queue id,
      executionOrder := s.executionOrder.filter (fun y => y != id),
      dependencyGraph := (mapDelete s.dependencyGraph id).map
        (fun e => (e.1, e.2.filter (fun d => d != id))) },
    ?_, ?_, ?_, rfl, ?_, ?_, ?_⟩
  · simp [TransactionQueue.remove, hget, hcond]
  · exact mapGet_mapDelete_self s.queue id
  · intro x hx
    exact mapGet_mapDelete_ne s.queue id x hx
  · simp [depsOf, mapGet_mapValues, mapGet_mapDelete_self]
  · intro x hx
    simp only [depsOf, mapGet_mapValues, mapGet_mapDelete_ne _ _ _ hx]
    cases mapGet s.dependencyGraph x <;> simp
  · intro x tx' hx hgx hdeps
    have hframe : ∀ d, d ≠ id →
        mapGet (mapDelete s.queue id) d = mapGet s.queue d := fun d hd =>
      mapGet_mapDelete_ne s.queue id d hd
    have hdeps' : depsOf { s with
        queue := mapDelete s.queue id,
        executionOrder := s.executionOrder.filter (fun y => y != id),
        dependencyGraph := (mapDelete s.dependencyGraph id).map
          (fun e => (e.1, e.2.filter (fun d => d != id))) } x =
        (depsOf s x).filter (fun d => d != id) := by
      simp only [depsOf, mapGet_mapValues, mapGet_mapDelete_ne _ _ _ hx]
      cases mapGet s.dependencyGraph x <;> simp
    have hpend : TransactionQueue.hasPendingDependencies { s with
        queue := mapDelete s.queue id,
        executionOrder := s.executionOrder.filter (fun y => y != id),
        dependencyGraph := (mapDelete s.dependencyGraph id).map
          (fun e => (e.1, e.2.filter (fun d => d != id))) } x = false := by
      rw [hasPendingDependencies_eq_false_iff]
      intro d hd dtx hdtx
      rw [hdeps'] at hd
      obtain ⟨hdm, hdne⟩ := List.mem_filter.mp hd
      have hdne' : d ≠ id := by simpa using hdne
      rw [hframe d hdne'] at hdtx
      exact hdeps d hdm hdne' dtx hdtx
    refine ⟨hpend, fun hst => ⟨tx', hgx, hst, ?_⟩⟩
    exact (hasPendingDependencies_eq_false_iff _ _).mp hpend

/-- The record another record depends on; terminally failed. -/
def remDepTx : QueuedTransaction :=
  { id := "a", config := { id := some "a", toAddr := some "0x1" },
    status := .FAILED, priority := 0, dependencies := [],
    retryCount := 3, maxRetries := 3, error := some "revert" }

/-- A `PENDING` record waiting on `remDepTx`. -/
def remWaiterTx : QueuedTransaction :=
  { id := "b", config := { id := some "b", toAddr := some "0x2" },
    status := .PENDING, priority := 0, dependencies := ["a"],
    retryCount := 0, maxRetries := 3 }

/-- A queue where "b" depends on the failed record "a". -/
def remState : TransactionQueueState :=
  { queue := [("a", remDepTx), ("b", remWaiterTx)],
    executionOrder := ["a", "b"],
    dependencyGraph := [("b", ["a"])], defaultMaxRetries := 3 }

/-- Witness for `remove_frame`: removing the failed record "a" from
`remState`. -/
theorem remove_frame_witness :
    ∃ s', TransactionQueue.remove remState "a" = .ok (true, s') ∧
      mapGet s'.queue "a" = none ∧
      (∀ x, x ≠ "a" → mapGet s'.queue x = mapGet remState.queue x) ∧
      s'.executionOrder = remState.executionOrder.filter (fun y => y != "a") ∧
      depsOf s' "a" = [] ∧
      (∀ x, x ≠ "a" →
        depsOf s' x = (depsOf remState x).filter (fun d => d != "a")) ∧
      (∀ x tx', x ≠ "a" → mapGet s'.queue x = some tx' →
        (∀ d ∈ depsOf remState x, d ≠ "a" →
          ∀ dtx, mapGet remState.queue d = some dtx →
            (dtx.status = .CONFIRMED ∨ dtx.status = .CANCELLED)) →
        TransactionQueue.hasPendingDependencies s' x = false ∧
        ((tx'.status = .PENDING ∨ tx'.status = .QUEUED) →
          eligibleSpec s' x)) :=
  remove_frame remState "a" remDepTx (by decide) (by decide) (by decide)

/-- The priority the execution-order scan reads for an id (0 when the
record is missing; the sortedness statements below only use it on ids
present in the queue). -/
def priOf (q : List (String × QueuedTransaction)) (x : String) : Int :=
  match mapGet q x with
  | some tx => tx.priority
  | none => 0

/-- The claim's invariant: the execution order is non-increasing in
priority. -/
def orderedByPriority (q : List (String × QueuedTransaction))
    (l : List String) : Prop :=
  l.Pairwise (fun a b => priOf q b ≤ priOf q a)

/-- Well-formedness: every execution-order entry has a record. -/
def wfOrder (s : TransactionQueueState) : Prop :=
  ∀ x ∈ s.executionOrder, (mapGet s.queue x).isSome = true

instance (q : List (String × QueuedTransaction)) (l : List String) :
    Decidable (orderedByPriority q l) :=
  inferInstanceAs (Decidable (l.Pairwise _))

instance (s : TransactionQueueState) : Decidable (wfOrder s) :=
  inferInstanceAs (Decidable (∀ x ∈ s.executionOrder, _))

/-- One mutating call in a queue history: an enqueue or a reorder. -/
inductive QueueOp where
  | addOp (config : TransactionConfig) (options : AddOptions)
      (generatedId : String)
  | reorderOp (id : String) (newPriority : Int)

/-- Apply one call. -/
def applyOp (s : TransactionQueueState) : QueueOp → TransactionQueueState
  | .addOp config options generatedId =>
      (TransactionQueue.add s config options generatedId).2
  | .reorderOp id newPriority =>
      (TransactionQueue.reorder s id newPriority).2

/-- Apply a sequence of calls. -/
def applyOps : TransactionQueueState → List QueueOp → TransactionQueueState
  | s, [] => s
  | s, op :: rest => applyOps (applyOp s op) rest

/-- Every `add` in the sequence uses an identifier that is fresh at the
moment it is applied (reorders are unrestricted). -/
def freshOps : TransactionQueueState → List QueueOp → Prop
  | _, [] => True
  | s, op :: rest =>
      (match op with
       | .addOp config _ generatedId =>
           mapGet s.queue (TransactionQueue.chosenId config generatedId) = none
       | .reorderOp _ _ => True) ∧ freshOps (applyOp s op) rest

/-- Unfolding equation for order insertion on a non-empty order. -/
theorem insertIntoExecutionOrder_cons
    (q : List (String × QueuedTransaction)) (id : String) (p : Int)
    (y : String) (rest : List String) :
    TransactionQueue.insertIntoExecutionOrder q id p (y :: rest) =
      match mapGet q y with
      | some tx =>
          if tx.priority < p then id :: y :: rest
          else y :: TransactionQueue.insertIntoExecutionOrder q id p rest
      | none => y :: TransactionQueue.insertIntoExecutionOrder q id p rest :=
  rfl

/-- Membership in the order after insertion. -/
theorem mem_insertIntoExecutionOrder
    (q : List (String × QueuedTransaction)) (id : String) (p : Int) :
    ∀ (l : List String) (x : String),
      x ∈ TransactionQueue.insertIntoExecutionOrder q id p l ↔
        x = id ∨ x ∈ l
  | [], x => by simp [TransactionQueue.insertIntoExecutionOrder]
  | y :: rest, x => by
      cases hq : mapGet q y with
      | none =>
          simp only [insertIntoExecutionOrder_cons, hq, List.mem_cons,
            mem_insertIntoExecutionOrder q id p rest x]
          tauto
      | some tx =>
          by_cases hp : tx.priority < p
          · simp only [insertIntoExecutionOrder_cons, hq, if_pos hp,
              List.mem_cons]
          · simp only [insertIntoExecutionOrder_cons, hq, if_neg hp,
              List.mem_cons, mem_insertIntoExecutionOrder q id p rest x]
            tauto

/-- Inserting an id of priority `p` into a priority-sorted order (all of
whose entries are present in the record map) keeps it sorted. -/
theorem insertIntoExecutionOrder_pairwise
    (q : List (String × QueuedTransaction)) (id : String) (p : Int)
    (hid : priOf q id = p) :
    ∀ l : List String, (∀ x ∈ l, (mapGet q x).isSome = true) →
      l.Pairwise (fun a b => priOf q b ≤ priOf q a) →
      (TransactionQueue.insertIntoExecutionOrder q id p l).Pairwise
        (fun a b => priOf q b ≤ priOf q a)
  | [], _, _ => by
      simp [TransactionQueue.insertIntoExecutionOrder]
  | y :: rest, hw, hs => by
      obtain ⟨ty, hty⟩ := Option.isSome_iff_exists.mp
        (hw y (List.mem_cons_self y rest))
      have hpy : priOf q y = ty.priority := by simp [priOf, hty]
      rw [List.pairwise_cons] at hs
      obtain ⟨hy, hrest⟩ := hs
      by_cases hp : ty.priority < p
      · simp only [insertIntoExecutionOrder_cons, hty, if_pos hp]
        rw [List.pairwise_cons]
        constructor
        · intro b hb
          rcases List.mem_cons.mp hb with rfl | hb'
          · rw [hid, hpy]
            exact le_of_lt hp
          · rw [hid]
            exact le_of_lt (lt_of_le_of_lt ((hpy ▸ hy b hb')) hp)
        · exact List.pairwise_cons.mpr ⟨hy, hrest⟩
      · simp only [insertIntoExecutionOrder_cons, hty, if_neg hp]
        rw [List.pairwise_cons]
        constructor
        · intro b hb
          rcases (mem_insertIntoExecutionOrder q id p rest b).mp hb
            with rfl | hb'
          · rw [hid, hpy]
            exact not_lt.mp hp
          · exact hy b hb'
        · exact insertIntoExecutionOrder_pairwise q id p hid rest
            (fun x hx => hw x (List.mem_cons_of_mem y hx)) hrest

/-- Stable placement: the new id lands right after the longest prefix of
entries whose priority is at least `p`, before the first entry of
strictly smaller priority, leaving the relative order of existing
entries untouched. -/
theorem insertIntoExecutionOrder_split
    (q : List (String × QueuedTransaction)) (id : String) (p : Int) :
    ∀ l : List String, (∀ x ∈ l, (mapGet q x).isSome = true) →
      ∃ l₁ l₂, l = l₁ ++ l₂ ∧
        TransactionQueue.insertIntoExecutionOrder q id p l =
          l₁ ++ id :: l₂ ∧
        (∀ x ∈ l₁, p ≤ priOf q x) ∧
        (∀ y, l₂.head? = some y → priOf q y < p)
  | [], _ => ⟨[], [], rfl, rfl, by simp, by simp⟩
  | y :: rest, hw => by
      obtain ⟨ty, hty⟩ := Option.isSome_iff_exists.mp
        (hw y (List.mem_cons_self y rest))
      have hpy : priOf q y = ty.priority := by simp [priOf, hty]
      by_cases hp : ty.priority < p
      · refine ⟨[], y :: rest, rfl, ?_, by simp, ?_⟩
        · simp only [insertIntoExecutionOrder_cons, hty, if_pos hp]
          rfl
        · intro z hz
          have hzy : y = z := by simpa using hz
          subst hzy
          rw [hpy]
          exact hp
      · obtain ⟨l₁, l₂, h1, h2, h3, h4⟩ :=
          insertIntoExecutionOrder_split q id p rest
            (fun x hx => hw x (List.mem_cons_of_mem y hx))
        refine ⟨y :: l₁, l₂, by rw [List.cons_append, ← h1], ?_, ?_, h4⟩
        · simp only [insertIntoExecutionOrder_cons, hty, if_neg hp, h2]
          rfl
        · intro x hx
          rcases List.mem_cons.mp hx with rfl | hx'
          · rw [hpy]
            exact not_lt.mp hp
          · exact h3 x hx'

/-- Core preservation step shared by `add` and `reorder`: writing a
record under an id absent from the order and inserting that id keeps
every order entry backed by a record and keeps the order sorted. -/
theorem insert_mapSet_preserves (q : List (String × QueuedTransaction))
    (ord : List String) (id : String) (tx : QueuedTransaction)
    (hnotmem : id ∉ ord)
    (hw : ∀ x ∈ ord, (mapGet q x).isSome = true)
    (hs : ord.Pairwise (fun a b => priOf q b ≤ priOf q a)) :
    (∀ x ∈ TransactionQueue.insertIntoExecutionOrder (mapSet q id tx) id
        tx.priority ord, (mapGet (mapSet q id tx) x).isSome = true) ∧
    (TransactionQueue.insertIntoExecutionOrder (mapSet q id tx) id
        tx.priority ord).Pairwise
      (fun a b => priOf (mapSet q id tx) b ≤ priOf (mapSet q id tx) a) := by
  have hpri : ∀ x ∈ ord, priOf (mapSet q id tx) x = priOf q x := by
    intro x hx
    have hxne : x ≠ id := fun he => hnotmem (he ▸ hx)
    simp [priOf, mapGet_mapSet_ne q id x tx hxne]
  have hw' : ∀ x ∈ ord, (mapGet (mapSet q id tx) x).isSome = true := by
    intro x hx
    have hxne : x ≠ id := fun he => hnotmem (he ▸ hx)
    rw [mapGet_mapSet_ne q id x tx hxne]
    exact hw x hx
  have hs' : ord.Pairwise
      (fun a b => priOf (mapSet q id tx) b ≤ priOf (mapSet q id tx) a) := by
    refine List.Pairwise.imp_of_mem ?_ hs
    intro a b ha hb hab
    rw [hpri a ha, hpri b hb]
    exact hab
  have hidp : priOf (mapSet q id tx) id = tx.priority := by
    simp [priOf, mapGet_mapSet_self]
  refine ⟨?_,
    insertIntoExecutionOrder_pairwise _ id tx.priority hidp ord hw' hs'⟩
  intro x hx
  rcases (mem_insertIntoExecutionOrder _ id tx.priority ord x).mp hx
    with rfl | hx'
  · simp [mapGet_mapSet_self]
  · exact hw' x hx'

/-- Stable placement transferred to the old record map: writing a fresh
record and inserting its id splits the old order into a prefix of
priorities ≥ the new one and a suffix opening with a strictly smaller
priority, with the new id in between and the existing order preserved. -/
theorem insert_mapSet_split (q : List (String × QueuedTransaction))
    (ord : List String) (id : String) (tx : QueuedTransaction)
    (hnotmem : id ∉ ord)
    (hw : ∀ x ∈ ord, (mapGet q x).isSome = true) :
    ∃ l₁ l₂, ord = l₁ ++ l₂ ∧
      TransactionQueue.insertIntoExecutionOrder (mapSet q id tx) id
        tx.priority ord = l₁ ++ id :: l₂ ∧
      (∀ x ∈ l₁, tx.priority ≤ priOf q x) ∧
      (∀ y, l₂.head? = some y → priOf q y < tx.priority) := by
  have hpri : ∀ x ∈ ord, priOf (mapSet q id tx) x = priOf q x := by
    intro x hx
    have hxne : x ≠ id := fun he => hnotmem (he ▸ hx)
    simp [priOf, mapGet_mapSet_ne q id x tx hxne]
  have hw' : ∀ x ∈ ord, (mapGet (mapSet q id tx) x).isSome = true := by
    intro x hx
    have hxne : x ≠ id := fun he => hnotmem (he ▸ hx)
    rw [mapGet_mapSet_ne q id x tx hxne]
    exact hw x hx
  obtain ⟨l₁, l₂, h1, h2, h3, h4⟩ :=
    insertIntoExecutionOrder_split (mapSet q id tx) id tx.priority ord hw'
  refine ⟨l₁, l₂, h1, h2, ?_, ?_⟩
  · intro x hx
    have hmem : x ∈ ord := by
      rw [h1]
      exact List.mem_append_left l₂ hx
    have := h3 x hx
    rwa [hpri x hmem] at this
  · intro y hy
    cases l₂ with
    | nil => cases hy
    | cons z t =>
        have hyz : z = y := by simpa using hy
        subst hyz
        have hmem : z ∈ ord := by
          rw [h1]
          exact List.mem_append_right l₁ (List.mem_cons_self z t)
        have := h4 z rfl
        rwa [hpri z hmem] at this

/-- A fresh-id enqueue keeps the order well formed and sorted. -/
theorem add_preserves_order (s : TransactionQueueState)
    (cfg : TransactionConfig) (opts : AddOptions) (gid : String)
    (hwf : wfOrder s) (hord : orderedByPriority s.queue s.executionOrder)
    (hfresh : mapGet s.queue (TransactionQueue.chosenId cfg gid) = none) :
    wfOrder (TransactionQueue.add s cfg opts gid).2 ∧
    orderedByPriority (TransactionQueue.add s cfg opts gid).2.queue
      (TransactionQueue.add s cfg opts gid).2.executionOrder := by
  have hnotmem : TransactionQueue.chosenId cfg gid ∉ s.executionOrder := by
    intro hm
    have hsome := hwf _ hm
    rw [hfresh] at hsome
    simp at hsome
  have key := insert_mapSet_preserves s.queue s.executionOrder
    (TransactionQueue.chosenId cfg gid)
    { id := TransactionQueue.chosenId cfg gid,
      config := { cfg with id := some (TransactionQueue.chosenId cfg gid) },
      status := .PENDING,
      priority := TransactionQueue.effectivePriority opts,
      dependencies := opts.dependencies.getD [],
      retryCount := 0,
      maxRetries :=
        match opts.maxRetries with
        | some m => if m = 0 then s.defaultMaxRetries else m
        | none => s.defaultMaxRetries,
      error := none } hnotmem hwf hord
  exact key

/-- `reorder` keeps the order well formed and sorted. -/
theorem reorder_preserves_order (s : TransactionQueueState) (id : String)
    (p : Int) (hwf : wfOrder s)
    (hord : orderedByPriority s.queue s.executionOrder) :
    wfOrder (TransactionQueue.reorder s id p).2 ∧
    orderedByPriority (TransactionQueue.reorder s id p).2.queue
      (TransactionQueue.reorder s id p).2.executionOrder := by
  cases hq : mapGet s.queue id with
  | none =>
      simp only [TransactionQueue.reorder, hq]
      exact ⟨hwf, hord⟩
  | some tx =>
      have hnotmem : id ∉ s.executionOrder.filter (fun y => y != id) := by
        intro hm
        have hne := (List.mem_filter.mp hm).2
        simp at hne
      have hw1 : ∀ x ∈ s.executionOrder.filter (fun y => y != id),
          (mapGet s.queue x).isSome = true :=
        fun x hx => hwf x (List.mem_of_mem_filter hx)
      have hs1 : (s.executionOrder.filter (fun y => y != id)).Pairwise
          (fun a b => priOf s.queue b ≤ priOf s.queue a) :=
        List.Pairwise.filter _ hord
      have key := insert_mapSet_preserves s.queue
        (s.executionOrder.filter (fun y => y != id)) id
        { tx with priority := p } hnotmem hw1 hs1
      simp only [TransactionQueue.reorder, hq]
      exact key

/-- Invariant over call sequences. -/
theorem applyOps_preserves :
    ∀ (ops : List QueueOp) (s : TransactionQueueState), wfOrder s →
      orderedByPriority s.queue s.executionOrder → freshOps s ops →
      wfOrder (applyOps s ops) ∧
      orderedByPriority (applyOps s ops).queue
        (applyOps s ops).executionOrder
  | [], _, hwf, hord, _ => ⟨hwf, hord⟩
  | op :: rest, s, hwf, hord, hfresh => by
      cases op with
      | addOp cfg opts gid =>
          obtain ⟨hop, hrest⟩ := hfresh
          have step := add_preserves_order s cfg opts gid hwf hord hop
          exact applyOps_preserves rest _ step.1 step.2 hrest
      | reorderOp id p =>
          obtain ⟨-, hrest⟩ := hfresh
          have step := reorder_preserves_order s id p hwf hord
          exact applyOps_preserves rest _ step.1 step.2 hrest

/-- State after `add "a"@5; add "b"@3; add "a"@0` from the empty
queue — the third call reuses the identifier "a". -/
def dupSeqState : TransactionQueueState :=
  (TransactionQueue.add
    (TransactionQueue.add
      (TransactionQueue.add TransactionQueue.emptyState
        { id := some "a", toAddr := some "0x1" } { priority := some 5 }
        "g1").2
      { id := some "b", toAddr := some "0x2" } { priority := some 3 }
      "g2").2
    { id := some "a", toAddr := some "0x3" } { priority := some 0 }
    "g3").2

/-- Claim C6 counterexample.  The claim quantifies over every sequence
of `add` and `reorder` calls.  A sequence whose third `add` reuses the
identifier "a" (priorities 5, 3, then 0) leaves the execution order
`["a", "b", "a"]` where the overwritten record "a" now has priority 0 in
front of "b" with priority 3 — the order is no longer non-increasing in
priority. -/
theorem executionOrder_sorted_cex :
    dupSeqState.executionOrder = ["a", "b", "a"] ∧
    priOf dupSeqState.queue "a" = 0 ∧
    priOf dupSeqState.queue "b" = 3 ∧
    ¬ orderedByPriority dupSeqState.queue dupSeqState.executionOrder := by
  refine ⟨by decide, by decide, by decide, ?_⟩
  intro h
  have := (List.pairwise_cons.mp h).1 "b" (by decide)
  revert this
  decide

/-- Claim C6, amended.  (1) Starting from the empty queue, after every
sequence of `add` and `reorder` calls in which each `add` uses an
identifier not already present at the moment it runs, the execution
order is non-increasing in priority.  (2) Each fresh-id `add` is a
stable insertion: the old order splits into a prefix whose priorities
are all ≥ the new record's priority (ties included, so earlier arrivals
of equal priority stay in front) and a suffix beginning with a strictly
smaller priority, the new id is placed exactly between them, and the
relative order of the existing entries is unchanged. -/
theorem executionOrder_sorted_invariant :
    (∀ ops : List QueueOp, freshOps TransactionQueue.emptyState ops →
      orderedByPriority (applyOps TransactionQueue.emptyState ops).queue
        (applyOps TransactionQueue.emptyState ops).executionOrder) ∧
    (∀ (s : TransactionQueueState) (cfg : TransactionConfig)
        (opts : AddOptions) (gid : String), wfOrder s →
      orderedByPriority s.queue s.executionOrder →
      mapGet s.queue (TransactionQueue.chosenId cfg gid) = none →
      ∃ l₁ l₂, s.executionOrder = l₁ ++ l₂ ∧
        (TransactionQueue.add s cfg opts gid).2.executionOrder =
          l₁ ++ TransactionQueue.chosenId cfg gid :: l₂ ∧
        (∀ x ∈ l₁,
          TransactionQueue.effectivePriority opts ≤ priOf s.queue x) ∧
        (∀ y, l₂.head? = some y →
          priOf s.queue y < TransactionQueue.effectivePriority opts)) := by
  constructor
  · intro ops hops
    refine (applyOps_preserves ops TransactionQueue.emptyState ?_ ?_ hops).2
    · intro x hx
      cases hx
    · exact List.Pairwise.nil
  · intro s cfg opts gid hwf hord hfresh
    have hnotmem : TransactionQueue.chosenId cfg gid ∉ s.executionOrder := by
      intro hm
      have hsome := hwf _ hm
      rw [hfresh] at hsome
      simp at hsome
    exact insert_mapSet_split s.queue s.executionOrder
      (TransactionQueue.chosenId cfg gid)
      { id := TransactionQueue.chosenId cfg gid,
        config := { cfg with id := some (TransactionQueue.chosenId cfg gid) },
        status := .PENDING,
        priority := TransactionQueue.effectivePriority opts,
        dependencies := opts.dependencies.getD [],
        retryCount := 0,
        maxRetries :=
          match opts.maxRetries with
          | some m => if m = 0 then s.defaultMaxRetries else m
          | none => s.defaultMaxRetries,
        error := none } hnotmem hwf

/-- Witness for `executionOrder_sorted_invariant`: its stability part
applied to adding the fresh id "b" with priority 3 to `dupBaseState`
(which holds "a" at priority 5). -/
theorem executionOrder_sorted_invariant_witness :
    (wfOrder dupBaseState ∧
      orderedByPriority dupBaseState.queue dupBaseState.executionOrder ∧
      mapGet dupBaseState.queue
        (TransactionQueue.chosenId
          { id := some "b", toAddr := some "0x2" } "g9") = none) ∧
    (∃ l₁ l₂, dupBaseState.executionOrder = l₁ ++ l₂ ∧
      (TransactionQueue.add dupBaseState
        { id := some "b", toAddr := some "0x2" } { priority := some 3 }
        "g9").2.executionOrder =
        l₁ ++ TransactionQueue.chosenId
          { id := some "b", toAddr := some "0x2" } "g9" :: l₂ ∧
      (∀ x ∈ l₁,
        TransactionQueue.effectivePriority { priority := some 3 } ≤
          priOf dupBaseState.queue x) ∧
      (∀ y, l₂.head? = some y →
        priOf dupBaseState.queue y <
          TransactionQueue.effectivePriority { priority := some 3 })) :=
  ⟨⟨by decide, by decide, by decide⟩,
    executionOrder_sorted_invariant.2 dupBaseState
      { id := some "b", toAddr := some "0x2" } { priority := some 3 } "g9"
      (by decide) (by decide) (by decide)⟩

end WalletTx
